import Mathlib

/-!
# Verification of the LaxCoach whiteboard core logic (src/App.js)

A shallow embedding, in Lean 4, of the geometry utilities, hit testing,
field-layout computation and interaction state machine of the single-file
React application `src/App.js` (the `LacrosseBoard` component), together
with theorems settling the specification's claims about it.

Modelling conventions:

* JavaScript numbers are modelled as exact rationals (`ℚ`).  All arithmetic
  in the source is `+ - * /` and comparisons, except `Math.sqrt` inside
  `distance` / `pointToLineDistance`.  Every use of a square root in the
  source is of the form `Math.sqrt d ≤ t` or `Math.sqrt d < t` with
  `d ≥ 0`; we embed such comparisons by the equivalent comparison of
  squares (`Real.sqrt d ≤ t ↔ 0 ≤ t ∧ d ≤ t ^ 2`, and for the constant
  positive thresholds of the source simply `d ≤ t ^ 2`), so the embedded
  functions compute squared distances (`distSq`, `pointToLineDistSq`)
  and the hit-testing predicates compare them against squared thresholds.
* Element ids, produced in the source by `generateId()` (a timestamp plus
  a random suffix, opaque and unique), are modelled as natural numbers
  handed out by a counter threaded through the state (`nextId`).
* React's `useState` setters within one event handler are modelled as a
  pure state-transition function `step : BoardState → Event → BoardState`
  built from the source's `handleStart` / `handleMove` / `handleEnd` /
  `handleUndo` / `handleConfirmClear`.
* Canvas painting is side-effecting in the source; `drawField` is embedded
  as the pure computation of what it paints: `none` when only the
  background fill is painted (the early-return guard) and
  `some layout` (position, size and yard scale of the field rectangle)
  when the field markings are drawn.
-/

namespace LaxBoard

/-- A 2D point with rational coordinates. -/
structure Point where
  x : ℚ
  y : ℚ
  deriving DecidableEq, Repr

/-- Squared Euclidean distance.  Embeds `distance(a, b)` from the source
(`Math.sqrt(Math.pow(a.x-b.x,2) + Math.pow(a.y-b.y,2))`): the source value is
the square root of this quantity, and every comparison the source makes with
it is embedded as the equivalent comparison of squares. -/
def distSq (a b : Point) : ℚ :=
  (a.x - b.x) ^ 2 + (a.y - b.y) ^ 2

/-- The projection parameter `param` of `pointToLineDistance`: `dot / lenSq`
when `lenSq ≠ 0`, else `-1` (the source initialises `param = -1` and only
assigns `dot / lenSq` under the guard `lenSq !== 0`). -/
def pointToLineParam (point start en : Point) : ℚ :=
  let A := point.x - start.x
  let B := point.y - start.y
  let C := en.x - start.x
  let D := en.y - start.y
  let dot := A * C + B * D
  let lenSq := C * C + D * D
  if lenSq ≠ 0 then dot / lenSq else -1

/-- The closest point `(xx, yy)` of the segment computed by
`pointToLineDistance`: the projection clamped to the segment. -/
def pointToLineClosest (point start en : Point) : Point :=
  let C := en.x - start.x
  let D := en.y - start.y
  let param := pointToLineParam point start en
  if param < 0 then start
  else if param > 1 then en
  else ⟨start.x + param * C, start.y + param * D⟩

/-- Squared point-to-segment distance; embeds `pointToLineDistance(point,
start, end)` (whose value is the square root of this quantity). -/
def pointToLineDistSq (point start en : Point) : ℚ :=
  distSq point (pointToLineClosest point start en)

/-- A drawable element, the discriminated union stored in the `elements`
state array.  The source tags each object with a `type` string
(`player` / `circle` / `line` / `freehand`); each element carries an `id`
and a `color`. -/
inductive Element where
  | player (id : ℕ) (x y radius : ℚ) (color : String)
  | circle (id : ℕ) (sx sy ex ey : ℚ) (color : String)
  | line (id : ℕ) (sx sy ex ey : ℚ) (color : String)
  | freehand (id : ℕ) (points : List Point) (color : String)
  deriving DecidableEq, Repr

/-- The `id` field of an element. -/
def Element.id : Element → ℕ
  | .player i _ _ _ _ => i
  | .circle i _ _ _ _ _ => i
  | .line i _ _ _ _ _ => i
  | .freehand i _ _ => i

/-- The squared effective radius of a zone (circle) element, as computed by
the renderer `drawElement`: the source radius is
`Math.max(distance(start, end), 10)`, so its square is
`max (distSq start end) (10 ^ 2)` (max commutes with squaring on
non-negative values). -/
def circleRenderRadiusSq (sx sy ex ey : ℚ) : ℚ :=
  max (distSq ⟨sx, sy⟩ ⟨ex, ey⟩) (10 ^ 2)

/-- Hit testing, embedding `isHit(element, x, y)` with each square-root
comparison replaced by the equivalent comparison of squares:
* player: `dist ≤ radius + 5` becomes `0 ≤ radius + 5 ∧ distSq ≤ (radius+5)²`
  (for an arbitrary rational `radius`; the source only ever creates radius 8);
* circle: `dist ≤ max(distToEnd, 10)` becomes
  `distSq ≤ max (distToEndSq) 10²` (the threshold is ≥ 10 > 0);
* line: `pointToLineDistance < 10` becomes `pointToLineDistSq < 10²`;
* freehand: some path point with `distance < 10`, i.e. `distSq < 10²`. -/
def isHit (element : Element) (x y : ℚ) : Bool :=
  match element with
  | .player _ px py radius _ =>
      decide (0 ≤ radius + 5) && decide (distSq ⟨x, y⟩ ⟨px, py⟩ ≤ (radius + 5) ^ 2)
  | .circle _ sx sy ex ey _ =>
      decide (distSq ⟨x, y⟩ ⟨sx, sy⟩ ≤ max (distSq ⟨sx, sy⟩ ⟨ex, ey⟩) (10 ^ 2))
  | .line _ sx sy ex ey _ =>
      decide (pointToLineDistSq ⟨x, y⟩ ⟨sx, sy⟩ ⟨ex, ey⟩ < 10 ^ 2)
  | .freehand _ points _ =>
      points.any fun p => decide (distSq ⟨x, y⟩ p < 10 ^ 2)

/-- A selection rectangle `{x, y, w, h}` with non-negative `w`, `h`
(the caller normalises). -/
structure Rect where
  x : ℚ
  y : ℚ
  w : ℚ
  h : ℚ
  deriving DecidableEq, Repr

/-- Embeds `isElementInRect(element, rect)`: marker by its centre, line and
circle by either endpoint, freehand by any path point (inclusive bounds). -/
def isElementInRect (element : Element) (rect : Rect) : Bool :=
  match element with
  | .player _ px py _ _ =>
      decide (rect.x ≤ px ∧ px ≤ rect.x + rect.w ∧ rect.y ≤ py ∧ py ≤ rect.y + rect.h)
  | .circle _ sx sy ex ey _ =>
      decide (rect.x ≤ sx ∧ sx ≤ rect.x + rect.w ∧ rect.y ≤ sy ∧ sy ≤ rect.y + rect.h) ||
      decide (rect.x ≤ ex ∧ ex ≤ rect.x + rect.w ∧ rect.y ≤ ey ∧ ey ≤ rect.y + rect.h)
  | .line _ sx sy ex ey _ =>
      decide (rect.x ≤ sx ∧ sx ≤ rect.x + rect.w ∧ rect.y ≤ sy ∧ sy ≤ rect.y + rect.h) ||
      decide (rect.x ≤ ex ∧ ex ≤ rect.x + rect.w ∧ rect.y ≤ ey ∧ ey ≤ rect.y + rect.h)
  | .freehand _ points _ =>
      points.any fun p =>
        decide (rect.x ≤ p.x ∧ p.x ≤ rect.x + rect.w ∧ rect.y ≤ p.y ∧ p.y ≤ rect.y + rect.h)

/-- Embeds `getElementAtPosition(x, y)`: iterate over `elements` in reverse
(from the last-inserted, topmost element), return the first hit, else
`null`.  The reverse-index loop of the source is exactly a forward scan of
the reversed list. -/
def getElementAtPosition (elements : List Element) (x y : ℚ) : Option Element :=
  elements.reverse.find? fun el => isHit el x y

/-! ## Interaction state machine -/

/-- The active tool (the source's `tool` state string). -/
inductive Tool where
  | player
  | circle
  | line
  | freehand
  | interact
  | eraser
  deriving DecidableEq, Repr

/-- The field view mode (the source's `viewMode` state string). -/
inductive ViewMode where
  | full
  | half
  deriving DecidableEq, Repr

/-- The in-progress selection rectangle, the source's `selectionBox`
state `{ startX, startY, currentX, currentY }`. -/
structure SelectionBox where
  startX : ℚ
  startY : ℚ
  currentX : ℚ
  currentY : ℚ
  deriving DecidableEq, Repr

/-- The component state: the `useState` variables of `LacrosseBoard`,
plus `nextId`, the counter modelling `generateId()`. -/
structure BoardState where
  tool : Tool
  viewMode : ViewMode
  color : String
  elements : List Element
  isDrawing : Bool
  currentElement : Option Element
  showClearConfirm : Bool
  selectedElementIds : List ℕ
  dragLastPos : Option Point
  selectionBox : Option SelectionBox
  nextId : ℕ
  deriving DecidableEq, Repr

/-- Translation of one element by `(dx, dy)`, the per-element body of the
group-drag `map` in `handleMove` (marker: translate centre; line/circle:
translate both endpoints; freehand: translate every path point). -/
def dragElement (dx dy : ℚ) : Element → Element
  | .player i x y r c => .player i (x + dx) (y + dy) r c
  | .circle i sx sy ex ey c => .circle i (sx + dx) (sy + dy) (ex + dx) (ey + dy) c
  | .line i sx sy ex ey c => .line i (sx + dx) (sy + dy) (ex + dx) (ey + dy) c
  | .freehand i pts c => .freehand i (pts.map fun p => ⟨p.x + dx, p.y + dy⟩) c

/-- The group-drag step of `handleMove`: map over the elements, translating
exactly those whose id is in the selection (`selectedElementIds.includes`). -/
def applyDrag (sel : List ℕ) (dx dy : ℚ) (els : List Element) : List Element :=
  els.map fun el => if sel.contains el.id then dragElement dx dy el else el

/-- Embeds `handleStart` (pointer-down at `(x, y)`). -/
def handleStart (s₀ : BoardState) (x y : ℚ) : BoardState :=
  let s := { s₀ with isDrawing := true }
  match s.tool with
  | .interact =>
      match getElementAtPosition s.elements x y with
      | some hit =>
          -- keep the selection if the hit element is already selected,
          -- else select only it; then prepare for dragging
          let s :=
            if s.selectedElementIds.contains hit.id then s
            else { s with selectedElementIds := [hit.id] }
          { s with dragLastPos := some ⟨x, y⟩, selectionBox := none }
      | none =>
          { s with selectedElementIds := [],
                   selectionBox := some ⟨x, y, x, y⟩,
                   dragLastPos := none }
  | .eraser =>
      match getElementAtPosition s.elements x y with
      | some hit => { s with elements := s.elements.filter fun el => el.id != hit.id }
      | none => s
  | .player =>
      { s with elements := s.elements ++ [.player s.nextId x y 8 s.color],
               isDrawing := false,
               nextId := s.nextId + 1 }
  | .freehand =>
      { s with currentElement := some (.freehand s.nextId [⟨x, y⟩] s.color),
               nextId := s.nextId + 1 }
  | .line =>
      { s with currentElement := some (.line s.nextId x y x y s.color),
               nextId := s.nextId + 1 }
  | .circle =>
      { s with currentElement := some (.circle s.nextId x y x y s.color),
               nextId := s.nextId + 1 }

/-- Embeds `handleMove` (pointer-move at `(x, y)`).  In the final branches
the source spreads new fields onto `currentElement`; when the element is
not of the branch's kind the added fields are never read by any consumer
(`drawElement`, `isHit`, commit), so the embedding leaves the element
unchanged there (those states are unreachable in normal operation anyway,
as a tool switch requires leaving the canvas, which fires `handleEnd`). -/
def handleMove (s : BoardState) (x y : ℚ) : BoardState :=
  if ¬ s.isDrawing = true ∧ s.tool ≠ .interact then s
  else if s.tool = .eraser ∧ s.isDrawing = true then
    match getElementAtPosition s.elements x y with
    | some hit => { s with elements := s.elements.filter fun el => el.id != hit.id }
    | none => s
  else if s.tool = .interact ∧ s.isDrawing = true then
    match s.selectionBox with
    | some box => { s with selectionBox := some { box with currentX := x, currentY := y } }
    | none =>
        match s.dragLastPos with
        | some last =>
            if s.selectedElementIds.length > 0 then
              { s with elements := applyDrag s.selectedElementIds
                                     (x - last.x) (y - last.y) s.elements,
                       dragLastPos := some ⟨x, y⟩ }
            else s
        | none => s
  else
    match s.currentElement with
    | none => s
    | some cur =>
        if s.tool = .freehand then
          match cur with
          | .freehand i pts c =>
              { s with currentElement := some (.freehand i (pts ++ [⟨x, y⟩]) c) }
          | _ => s
        else
          match cur with
          | .line i sx sy _ _ c => { s with currentElement := some (.line i sx sy x y c) }
          | .circle i sx sy _ _ c => { s with currentElement := some (.circle i sx sy x y c) }
          | _ => s

/-- Embeds `handleEnd` (pointer-up / pointer-leave). -/
def handleEnd (s₀ : BoardState) : BoardState :=
  let s := { s₀ with isDrawing := false }
  let s :=
    if s.tool = .interact then
      let s :=
        match s.selectionBox with
        | some box =>
            let x1 := min box.startX box.currentX
            let y1 := min box.startY box.currentY
            let w := abs (box.currentX - box.startX)
            let h := abs (box.currentY - box.startY)
            let rect : Rect := ⟨x1, y1, w, h⟩
            { s with selectedElementIds :=
                       (s.elements.filter fun el => isElementInRect el rect).map Element.id,
                     selectionBox := none }
        | none => s
      { s with dragLastPos := none }
    else s
  match s.currentElement with
  | some cur => { s with elements := s.elements ++ [cur], currentElement := none }
  | none => s

/-- Embeds `handleUndo`: drop the last element (`slice(0, -1)`). -/
def handleUndo (s : BoardState) : BoardState :=
  { s with elements := s.elements.dropLast }

/-- Embeds `handleConfirmClear`. -/
def handleConfirmClear (s : BoardState) : BoardState :=
  { s with elements := [], currentElement := none,
           selectedElementIds := [], showClearConfirm := false }

/-- The user-visible events driving the controller. -/
inductive Event where
  | pointerDown (x y : ℚ)
  | pointerMove (x y : ℚ)
  | pointerUp
  | undo
  | clearTrigger
  | clearConfirm
  | clearCancel
  | setTool (t : Tool)
  | setViewMode (v : ViewMode)
  | setColor (c : String)
  deriving DecidableEq, Repr

/-- One controller transition: dispatch an event to the matching handler. -/
def step (s : BoardState) : Event → BoardState
  | .pointerDown x y => handleStart s x y
  | .pointerMove x y => handleMove s x y
  | .pointerUp => handleEnd s
  | .undo => handleUndo s
  | .clearTrigger => { s with showClearConfirm := true }
  | .clearConfirm => handleConfirmClear s
  | .clearCancel => { s with showClearConfirm := false }
  | .setTool t => { s with tool := t }
  | .setViewMode v => { s with viewMode := v }
  | .setColor c => { s with color := c }

/-- The initial component state (the `useState` initial values). -/
def initState : BoardState :=
  { tool := .player, viewMode := .full, color := "#ef4444",
    elements := [], isDrawing := false, currentElement := none,
    showClearConfirm := false, selectedElementIds := [],
    dragLastPos := none, selectionBox := none, nextId := 0 }

/-- Run a sequence of events from the initial state; the states in the
image of `run` are exactly the reachable states. -/
def run (evs : List Event) : BoardState :=
  evs.foldl step initState

/-! ## Field layout -/

/-- The placement of the field rectangle on the canvas, with `scale` the
pixels-per-yard factor, as computed inside `drawField`. -/
structure FieldLayout where
  x : ℚ
  y : ℚ
  w : ℚ
  h : ℚ
  scale : ℚ
  deriving DecidableEq, Repr

/-- Embeds `drawField(ctx, width, height)`.  The source always paints the
background fill; it returns early (drawing no field markings) when the
available drawing area is non-positive in either dimension.  We embed the
painting as the computed layout of the markings: `none` means only the
background fill was painted, `some layout` means the markings were drawn
at `layout`. -/
def drawField (width height : ℚ) (viewMode : ViewMode) : Option FieldLayout :=
  let padding : ℚ := 30
  if width ≤ padding * 2 ∨ height ≤ padding * 2 then none
  else
    let drawWidth := width - padding * 2
    let drawHeight := height - padding * 2
    let fieldRatio : ℚ := if viewMode = .full then 110 / 60 else 60 / 65
    let canvasRatio := drawWidth / drawHeight
    if canvasRatio > fieldRatio then
      let h := drawHeight
      let w := h * fieldRatio
      some ⟨(width - w) / 2, padding, w, h,
            if viewMode = .full then w / 110 else w / 60⟩
    else
      let w := drawWidth
      let h := w / fieldRatio
      some ⟨padding, (height - h) / 2, w, h,
            if viewMode = .full then w / 110 else w / 60⟩

/-! ## Helper lemmas -/

/-- `find?` skips a block of elements on which the predicate is false. -/
theorem find?_append_of_forall_false {α : Type} (p : α → Bool) (l₁ l₂ : List α)
    (h : ∀ a ∈ l₁, p a = false) : (l₁ ++ l₂).find? p = l₂.find? p := by
  induction l₁ with
  | nil => simp
  | cons a l ih =>
      rw [List.cons_append, List.find?_cons_of_neg _ (by simp [h a (by simp)])]
      exact ih fun b hb => h b (by simp [hb])

/-- A hit-test result is a hit element of the list. -/
theorem getElementAtPosition_mem {els : List Element} {x y : ℚ} {el : Element}
    (h : getElementAtPosition els x y = some el) :
    el ∈ els ∧ isHit el x y = true := by
  unfold getElementAtPosition at h
  have hp := List.find?_some h
  exact ⟨List.mem_reverse.mp (List.mem_of_find?_eq_some h), by simpa using hp⟩

/-- The hit test misses exactly when no element of the list is hit. -/
theorem getElementAtPosition_eq_none {els : List Element} {x y : ℚ} :
    getElementAtPosition els x y = none ↔ ∀ el ∈ els, isHit el x y = false := by
  unfold getElementAtPosition
  rw [List.find?_eq_none]
  constructor
  · intro h el hel
    simpa using h el (List.mem_reverse.mpr hel)
  · intro h el hel
    simpa using h el (List.mem_reverse.mp hel)

/-- Dragging never changes an element's id. -/
theorem dragElement_id (dx dy : ℚ) (el : Element) :
    (dragElement dx dy el).id = el.id := by
  cases el <;> rfl

/-- Dragging by `(dx, dy)` then by `(-dx, -dy)` is the identity on one
element. -/
theorem dragElement_inverse (dx dy : ℚ) (el : Element) :
    dragElement (-dx) (-dy) (dragElement dx dy el) = el := by
  cases el <;> simp only [dragElement, List.map_map, Element.player.injEq,
    Element.circle.injEq, Element.line.injEq, Element.freehand.injEq,
    add_neg_cancel_right, true_and, and_true, and_self]
  exact Eq.trans (List.map_congr_left fun p _ => by simp) (List.map_id _)

/-- The group drag preserves the multiset of ids position by position. -/
theorem applyDrag_map_id (sel : List ℕ) (dx dy : ℚ) (els : List Element) :
    (applyDrag sel dx dy els).map Element.id = els.map Element.id := by
  unfold applyDrag
  rw [List.map_map]
  refine List.map_congr_left fun el _ => ?_
  by_cases h : el.id ∈ sel <;> simp [h, dragElement_id]

/-! ## Claims -/

/-- C2: group drag is translation-rigid.  Applying the interact-tool drag
step (`applyDrag`, the `setElements` map of `handleMove`) to any element
list and any selection by `(dx, dy)` and then by `(-dx, -dy)` restores
every element (selected ones of every kind — marker centre, line/zone
endpoints, every freehand path point — and untouched unselected ones) to
its original geometry; over the exact rationals of the model the round
trip is the identity, which is in particular within any floating-point
tolerance.  The second conjunct states the same fact operationally on the
controller: a `handleMove` drag to `(x, y)` followed by a `handleMove`
drag back to the anchor restores the element list. -/
theorem drag_translation_rigid (sel : List ℕ) (dx dy : ℚ) (els : List Element) :
    applyDrag sel (-dx) (-dy) (applyDrag sel dx dy els) = els ∧
    (∀ s : BoardState, ∀ last : Point, ∀ x y : ℚ,
      s.tool = .interact → s.isDrawing = true → s.selectionBox = none →
      s.dragLastPos = some last → 0 < s.selectedElementIds.length →
      (handleMove (handleMove s x y) last.x last.y).elements = s.elements) := by
  have key : ∀ sel₁ : List ℕ, ∀ dx₁ dy₁ : ℚ, ∀ els₁ : List Element,
      applyDrag sel₁ (-dx₁) (-dy₁) (applyDrag sel₁ dx₁ dy₁ els₁) = els₁ := by
    intro sel₁ dx₁ dy₁ els₁
    unfold applyDrag
    rw [List.map_map]
    refine Eq.trans (List.map_congr_left fun el _ => ?_) (List.map_id els₁)
    simp only [Function.comp_apply, id_eq]
    by_cases h : sel₁.contains el.id = true
    · rw [if_pos h, if_pos (by rw [dragElement_id]; exact h)]
      exact dragElement_inverse _ _ _
    · rw [if_neg h, if_neg h]
  refine ⟨key sel dx dy els, fun s last x y htool hdraw hbox hlast hsel => ?_⟩
  have h1 : handleMove s x y =
      { s with elements := applyDrag s.selectedElementIds (x - last.x) (y - last.y) s.elements,
               dragLastPos := some ⟨x, y⟩ } := by
    unfold handleMove
    rw [htool, hbox, hlast]
    simp [hdraw, hsel]
  have h2 : handleMove (handleMove s x y) last.x last.y =
      { s with elements := applyDrag s.selectedElementIds (last.x - x) (last.y - y)
                 (applyDrag s.selectedElementIds (x - last.x) (y - last.y) s.elements),
               dragLastPos := some ⟨last.x, last.y⟩ } := by
    rw [h1]
    unfold handleMove
    simp [htool, hdraw, hbox, hsel]
  rw [h2]
  have hx : last.x - x = -(x - last.x) := by ring
  have hy : last.y - y = -(y - last.y) := by ring
  rw [hx, hy, key]

/-- C2 witness: a concrete round-trip drag of a selected marker. -/
theorem drag_translation_rigid_witness :
    (handleMove
      (handleMove
        { initState with tool := .interact, isDrawing := true,
                         elements := [.player 0 100 100 8 "#ef4444"],
                         selectedElementIds := [0],
                         dragLastPos := some ⟨100, 100⟩ }
        110 90)
      100 100).elements = [.player 0 100 100 8 "#ef4444"] := by
  have h := (drag_translation_rigid [0] 0 0 []).2
    { initState with tool := .interact, isDrawing := true,
                     elements := [.player 0 100 100 8 "#ef4444"],
                     selectedElementIds := [0],
                     dragLastPos := some ⟨100, 100⟩ }
    ⟨100, 100⟩ 110 90 rfl rfl rfl rfl (by simp)
  exact h

/-- C4: `getElementAtPosition` scans the element sequence from the
last-inserted element backward and returns the first element for which
`isHit` holds, or `none` if no element is hit.  Conjuncts: (1) the result
is `none` exactly when no element of the list is hit; (2) any returned
element is a hit element of the list; (3) whenever the list splits as
`pre ++ el :: post` with `el` hit and everything after it (elements later
in insertion order, i.e. higher in z-order) not hit, the result is exactly
`el` — so among several hit elements the latest-inserted one wins. -/
theorem getElementAtPosition_spec (els : List Element) (x y : ℚ) :
    (getElementAtPosition els x y = none ↔ ∀ el ∈ els, isHit el x y = false) ∧
    (∀ el, getElementAtPosition els x y = some el → el ∈ els ∧ isHit el x y = true) ∧
    (∀ pre el post, els = pre ++ el :: post → isHit el x y = true →
      (∀ e ∈ post, isHit e x y = false) →
      getElementAtPosition els x y = some el) := by
  refine ⟨getElementAtPosition_eq_none, fun el h => getElementAtPosition_mem h,
    fun pre el post hsplit hhit hpost => ?_⟩
  subst hsplit
  unfold getElementAtPosition
  rw [List.reverse_append, List.reverse_cons, List.append_assoc,
    find?_append_of_forall_false _ _ _ (by
      intro e he
      exact hpost e (List.mem_reverse.mp he))]
  rw [List.singleton_append, List.find?_cons_of_pos _ (by simpa using hhit)]

/-- C4 witness: with two overlapping markers the later-inserted one wins,
and an empty list yields no hit. -/
theorem getElementAtPosition_spec_witness :
    getElementAtPosition
      [.player 0 100 100 8 "#ef4444", .player 1 103 104 8 "#3b82f6"] 100 100 =
      some (.player 1 103 104 8 "#3b82f6") := by
  refine (getElementAtPosition_spec
    [.player 0 100 100 8 "#ef4444", .player 1 103 104 8 "#3b82f6"] 100 100).2.2
    [.player 0 100 100 8 "#ef4444"] (.player 1 103 104 8 "#3b82f6") [] rfl ?_ (by simp)
  norm_num [isHit, distSq]

/-- C5: a line element is hit exactly when the point-to-segment distance is
strictly below the 10px threshold (`pointToLineDistance < 10` in the source,
embedded as squared distance `< 10 ^ 2`).  In particular, for the line from
(0,0) to (50,0): the point (25,5) is a hit, its squared segment distance
being `5 ^ 2` (distance 5 < 10), and the point (25,20) is not a hit
(distance 20 ≥ 10). -/
theorem line_hit_spec (i : ℕ) (sx sy ex ey x y : ℚ) (c : String) :
    (isHit (.line i sx sy ex ey c) x y = true ↔
      pointToLineDistSq ⟨x, y⟩ ⟨sx, sy⟩ ⟨ex, ey⟩ < 10 ^ 2) ∧
    isHit (.line i 0 0 50 0 c) 25 5 = true ∧
    pointToLineDistSq ⟨25, 5⟩ ⟨0, 0⟩ ⟨50, 0⟩ = 5 ^ 2 ∧
    pointToLineDistSq ⟨25, 20⟩ ⟨0, 0⟩ ⟨50, 0⟩ = 20 ^ 2 ∧
    isHit (.line i 0 0 50 0 c) 25 20 = false := by
  refine ⟨by simp [isHit], ?_, ?_, ?_, ?_⟩ <;>
    norm_num [isHit, pointToLineDistSq, pointToLineClosest, pointToLineParam, distSq]

/-- C6: a zone (circle) element is hit exactly when the distance from the
point to the zone's start is at most the effective radius
`max (distance start end) 10` — the same effective radius the renderer
`drawElement` uses (`circleRenderRadiusSq`, embedded as squares throughout).
In particular for the zone from (0,0) to (0,20) the effective radius is 20,
the point (0,19) is a hit and the point (0,25) is not. -/
theorem zone_hit_spec (i : ℕ) (sx sy ex ey x y : ℚ) (c : String) :
    (isHit (.circle i sx sy ex ey c) x y = true ↔
      distSq ⟨x, y⟩ ⟨sx, sy⟩ ≤ circleRenderRadiusSq sx sy ex ey) ∧
    circleRenderRadiusSq 0 0 0 20 = 20 ^ 2 ∧
    isHit (.circle i 0 0 0 20 c) 0 19 = true ∧
    isHit (.circle i 0 0 0 20 c) 0 25 = false := by
  refine ⟨by simp [isHit, circleRenderRadiusSq], ?_, ?_, ?_⟩ <;>
    norm_num [isHit, circleRenderRadiusSq, distSq]

/-- C7: on the degenerate segment with equal endpoints,
`pointToLineDistance(p, s, s)` equals `distance(p, s)` (stated on the
squared values, which determine the non-negative distances), and no
division by zero is performed: `lenSq = 0`, so the guard `lenSq !== 0`
keeps `param` at its initial value `-1` and the quotient `dot / lenSq`
is never formed. -/
theorem pointToLine_degenerate_spec (p s : Point) :
    pointToLineDistSq p s s = distSq p s ∧ pointToLineParam p s s = -1 := by
  constructor
  · simp [pointToLineDistSq, pointToLineClosest, pointToLineParam, sub_self]
  · simp [pointToLineParam, sub_self]

/-- C8: when the available drawing area (canvas size minus the fixed 30px
padding on each side) is non-positive in either dimension, `drawField`
short-circuits: it paints only the background fill and draws no field
markings (result `none`), for either view mode.  The embedding is a total
function, and the ratios `drawWidth / drawHeight` and `w / fieldRatio`
are only formed in the other branch, where both dimensions are positive —
no throw, no division by zero. -/
theorem drawField_degenerate_spec (width height : ℚ) (vm : ViewMode)
    (h : width - 30 * 2 ≤ 0 ∨ height - 30 * 2 ≤ 0) :
    drawField width height vm = none := by
  have h30 : width ≤ 30 * 2 ∨ height ≤ 30 * 2 := by
    rcases h with h | h
    exacts [Or.inl (by linarith), Or.inr (by linarith)]
  simp only [drawField]
  rw [if_pos h30]

/-- C8 witness: a 40×600 canvas (40 − 60 < 0 available width) renders
background only. -/
theorem drawField_degenerate_spec_witness : drawField 40 600 ViewMode.full = none :=
  drawField_degenerate_spec 40 600 ViewMode.full (by norm_num)

/-- C9: at canvas size 1000×600 in full-field mode, the field markings are
drawn, the boundary rectangle is centred (left padding = right padding,
top padding = bottom padding), every padding is at least 30px, and the
rectangle has the exact 110:60 aspect ratio (`w * 60 = h * 110`) with
positive size. -/
theorem drawField_full_1000x600 :
    ∃ L : FieldLayout, drawField 1000 600 ViewMode.full = some L ∧
      L.x = 1000 - (L.x + L.w) ∧
      L.y = 600 - (L.y + L.h) ∧
      30 ≤ L.x ∧ 30 ≤ L.y ∧
      L.w * 60 = L.h * 110 ∧ 0 < L.w ∧ 0 < L.h := by
  refine ⟨⟨30, 480 / 11, 940, 5640 / 11, 94 / 11⟩, ?_, ?_, ?_, ?_, ?_, ?_, ?_, ?_⟩ <;>
    norm_num [drawField]

/-- C3: interact-tool pointer-down.  If the topmost hit element's id is
already in the selection set, the selection is kept unchanged and a drag is
begun anchored at the pointer position (and any selection rectangle is
discarded); if the hit element is not already selected, the selection is
replaced by exactly that element's id and a drag is begun; if nothing is
hit, the selection is cleared and a selection rectangle is begun anchored
at the pointer position (and the drag anchor cleared).  The element list
itself is untouched in all three cases. -/
theorem interact_pointerDown_spec (s : BoardState) (x y : ℚ) (ht : s.tool = Tool.interact) :
    (∀ hit, getElementAtPosition s.elements x y = some hit →
       (hit.id ∈ s.selectedElementIds →
          (handleStart s x y).selectedElementIds = s.selectedElementIds) ∧
       (hit.id ∉ s.selectedElementIds →
          (handleStart s x y).selectedElementIds = [hit.id]) ∧
       (handleStart s x y).dragLastPos = some ⟨x, y⟩ ∧
       (handleStart s x y).selectionBox = none ∧
       (handleStart s x y).elements = s.elements) ∧
    (getElementAtPosition s.elements x y = none →
       (handleStart s x y).selectedElementIds = [] ∧
       (handleStart s x y).selectionBox = some ⟨x, y, x, y⟩ ∧
       (handleStart s x y).dragLastPos = none ∧
       (handleStart s x y).elements = s.elements) := by
  constructor
  · intro hit hh
    refine ⟨fun hc => ?_, fun hc => ?_, ?_, ?_, ?_⟩ <;>
      simp only [handleStart, ht, hh] <;>
      by_cases hc₂ : hit.id ∈ s.selectedElementIds <;>
      simp_all
  · intro hh
    refine ⟨?_, ?_, ?_, ?_⟩ <;> simp [handleStart, ht, hh]

/-- C3 witness: pointer-down on an unselected marker replaces the
selection with exactly that marker's id. -/
theorem interact_pointerDown_spec_witness :
    (handleStart
      { initState with tool := Tool.interact,
                       elements := [Element.player 0 100 100 8 "#ef4444"] }
      100 100).selectedElementIds = [0] := by
  have h := (interact_pointerDown_spec
    { initState with tool := Tool.interact,
                     elements := [Element.player 0 100 100 8 "#ef4444"] }
    100 100 rfl).1 (Element.player 0 100 100 8 "#ef4444")
    (by norm_num [getElementAtPosition, isHit, distSq, List.find?])
  exact h.2.1 (by simp [initState])

/-- C10: the erase action.  On an eraser-tool pointer-down (and, while the
pointer stays down, on every pointer-move) whose hit test returns an
element, the element list afterwards is the prior list with the entries
bearing the hit element's id removed (`filter (el.id !== hit.id)`): a
sublist of the original, so every remaining element keeps its id, kind,
geometry and color, and the relative order is preserved; membership
afterwards is exactly prior membership with a different id than the hit.
When the hit test returns no element the list is unchanged. -/
theorem erase_frame_spec (s : BoardState) (x y : ℚ) (ht : s.tool = Tool.eraser) :
    (∀ hit, getElementAtPosition s.elements x y = some hit →
       (step s (.pointerDown x y)).elements =
          (s.elements.filter fun el => el.id != hit.id) ∧
       ((step s (.pointerDown x y)).elements).Sublist s.elements ∧
       (∀ el, el ∈ (step s (.pointerDown x y)).elements ↔
          el ∈ s.elements ∧ el.id ≠ hit.id) ∧
       (s.isDrawing = true →
         (step s (.pointerMove x y)).elements =
           (s.elements.filter fun el => el.id != hit.id))) ∧
    (getElementAtPosition s.elements x y = none →
       (step s (.pointerDown x y)).elements = s.elements ∧
       (s.isDrawing = true →
         (step s (.pointerMove x y)).elements = s.elements)) := by
  constructor
  · intro hit hh
    have hdown : (step s (.pointerDown x y)).elements =
        (s.elements.filter fun el => el.id != hit.id) := by
      show (handleStart s x y).elements = _
      simp [handleStart, ht, hh]
    refine ⟨hdown, ?_, ?_, fun hd => ?_⟩
    · rw [hdown]
      exact List.filter_sublist s.elements
    · intro el
      rw [hdown]
      simp [List.mem_filter]
    · show (handleMove s x y).elements = _
      simp [handleMove, ht, hd, hh]
  · intro hh
    constructor
    · show (handleStart s x y).elements = _
      simp [handleStart, ht, hh]
    · intro hd
      show (handleMove s x y).elements = _
      simp [handleMove, ht, hd, hh]

/-- C10 witness: erasing the only marker at its centre empties the list,
while erasing over empty space changes nothing. -/
theorem erase_frame_spec_witness :
    (step
      { initState with tool := Tool.eraser,
                       elements := [Element.player 0 100 100 8 "#ef4444"] }
      (Event.pointerDown 100 100)).elements = [] := by
  have h := (erase_frame_spec
    { initState with tool := Tool.eraser,
                     elements := [Element.player 0 100 100 8 "#ef4444"] }
    100 100 rfl).1 (Element.player 0 100 100 8 "#ef4444")
    (by norm_num [getElementAtPosition, isHit, distSq, List.find?])
  rw [h.1]
  simp [Element.id]

/-! ## The selection/sequence coupling invariant (C1) -/

/-- `sel` is a sound selection for `els`: every id in `sel` is the id of
some element of `els`. -/
def SelIdsOk (sel : List ℕ) (els : List Element) : Prop :=
  ∀ i ∈ sel, ∃ el ∈ els, el.id = i

/-- The data-model invariant of the spec: every id in the selection set
references an element currently present in the element sequence. -/
def SelectionInvariant (s : BoardState) : Prop :=
  SelIdsOk s.selectedElementIds s.elements

/-- Appending elements preserves selection soundness. -/
theorem SelIdsOk.append {sel : List ℕ} {els : List Element} (l : List Element)
    (h : SelIdsOk sel els) : SelIdsOk sel (els ++ l) := by
  intro i hi
  obtain ⟨el, hel, hid⟩ := h i hi
  exact ⟨el, List.mem_append_left _ hel, hid⟩

/-- The empty selection is sound for any element list. -/
theorem SelIdsOk.nil (els : List Element) : SelIdsOk [] els := by
  intro i hi
  exact absurd hi (List.not_mem_nil i)

/-- A selection built from ids of filtered elements of the list is sound. -/
theorem SelIdsOk.filter_map (els : List Element) (p : Element → Bool) :
    SelIdsOk ((els.filter p).map Element.id) els := by
  intro i hi
  obtain ⟨el, hel, hid⟩ := List.mem_map.mp hi
  exact ⟨el, (List.mem_filter.mp hel).1, hid⟩

/-- Replacing the element list by one carrying the same ids (position by
position) preserves selection soundness. -/
theorem SelIdsOk.of_map_id_eq {sel : List ℕ} {els els₂ : List Element}
    (h : els₂.map Element.id = els.map Element.id)
    (hok : SelIdsOk sel els) : SelIdsOk sel els₂ := by
  intro i hi
  obtain ⟨el, hel, hid⟩ := hok i hi
  have hmem : i ∈ els₂.map Element.id := by
    rw [h]
    exact List.mem_map.mpr ⟨el, hel, hid⟩
  obtain ⟨el₂, hel₂, hid₂⟩ := List.mem_map.mp hmem
  exact ⟨el₂, hel₂, hid₂⟩

/-- Filtering out an unselected id preserves selection soundness. -/
theorem SelIdsOk.filter_ne {sel : List ℕ} {els : List Element} (n : ℕ)
    (hn : n ∉ sel) (hok : SelIdsOk sel els) :
    SelIdsOk sel (els.filter fun el => el.id != n) := by
  intro i hi
  obtain ⟨el, hel, hid⟩ := hok i hi
  refine ⟨el, List.mem_filter.mpr ⟨hel, bne_iff_ne.mpr fun hc => ?_⟩, hid⟩
  exact hn (by rw [← hc, hid]; exact hi)

/-- Case analysis of `handleStart`: on pointer-down the state keeps the
selection and the elements, or appends one element, or clears the
selection, or replaces the selection by the hit element's id, or (eraser)
filters the hit element's id out of the elements. -/
theorem handleStart_cases (s : BoardState) (x y : ℚ) :
    ((handleStart s x y).selectedElementIds = s.selectedElementIds ∧
       (handleStart s x y).elements = s.elements) ∨
    ((handleStart s x y).selectedElementIds = s.selectedElementIds ∧
       ∃ el, (handleStart s x y).elements = s.elements ++ [el]) ∨
    ((handleStart s x y).selectedElementIds = [] ∧
       (handleStart s x y).elements = s.elements) ∨
    (∃ hit, getElementAtPosition s.elements x y = some hit ∧
       (handleStart s x y).selectedElementIds = [hit.id] ∧
       (handleStart s x y).elements = s.elements) ∨
    (∃ hit, getElementAtPosition s.elements x y = some hit ∧
       (handleStart s x y).selectedElementIds = s.selectedElementIds ∧
       s.tool = Tool.eraser ∧
       (handleStart s x y).elements = s.elements.filter fun el => el.id != hit.id) := by
  unfold handleStart
  dsimp only
  split
  all_goals try split
  all_goals try dsimp only
  all_goals try split
  all_goals first
    | exact Or.inl ⟨rfl, rfl⟩
    | exact Or.inr (Or.inl ⟨rfl, _, rfl⟩)
    | exact Or.inr (Or.inr (Or.inl ⟨rfl, rfl⟩))
    | (rename_i hit heq hc
       exact Or.inr (Or.inr (Or.inr (Or.inl ⟨hit, heq, rfl, rfl⟩))))
    | (rename_i x₁ htool x₂ hit heq
       exact Or.inr (Or.inr (Or.inr (Or.inr ⟨hit, heq, rfl, htool, rfl⟩))))

/-- Case analysis of `handleMove`: pointer-move keeps the selection set,
and either keeps the elements, applies a group drag to them, or (eraser)
filters the hit element's id out of them. -/
theorem handleMove_cases (s : BoardState) (x y : ℚ) :
    (handleMove s x y).selectedElementIds = s.selectedElementIds ∧
    ((handleMove s x y).elements = s.elements ∨
     (∃ dx dy, (handleMove s x y).elements =
        applyDrag s.selectedElementIds dx dy s.elements) ∨
     (∃ hit, getElementAtPosition s.elements x y = some hit ∧ s.tool = Tool.eraser ∧
        (handleMove s x y).elements = s.elements.filter fun el => el.id != hit.id)) := by
  unfold handleMove
  split
  · exact ⟨rfl, Or.inl rfl⟩
  all_goals try split
  all_goals try split
  all_goals try split
  all_goals try split
  all_goals try split
  all_goals first
    | exact ⟨rfl, Or.inl rfl⟩
    | (rename_i hcond x₁ hit heq
       exact ⟨rfl, Or.inr (Or.inr ⟨hit, heq, hcond.1, rfl⟩)⟩)
    | (rename_i last x₁ x₂
       exact ⟨rfl, Or.inr (Or.inl ⟨x - last.x, y - last.y, rfl⟩)⟩)

/-- Case analysis of `handleEnd`: pointer-up keeps the selection or
replaces it by the ids of the elements intersecting some rectangle, and
keeps the elements or appends the committed in-progress element. -/
theorem handleEnd_cases (s : BoardState) :
    ((handleEnd s).selectedElementIds = s.selectedElementIds ∨
     ∃ rect, (handleEnd s).selectedElementIds =
        (s.elements.filter fun el => isElementInRect el rect).map Element.id) ∧
    ((handleEnd s).elements = s.elements ∨
     ∃ cur, (handleEnd s).elements = s.elements ++ [cur]) := by
  unfold handleEnd
  dsimp only
  split
  all_goals try split
  all_goals try split
  all_goals first
    | exact ⟨Or.inl rfl, Or.inl rfl⟩
    | exact ⟨Or.inl rfl, Or.inr ⟨_, rfl⟩⟩
    | exact ⟨Or.inr ⟨_, rfl⟩, Or.inl rfl⟩
    | exact ⟨Or.inr ⟨_, rfl⟩, Or.inr ⟨_, rfl⟩⟩

/-- The event trace refuting C1: place a marker at (100,100) with the
default tool, select it with the interact tool, switch to the eraser and
erase it.  The marker leaves the element sequence while its id stays in
the selection set (the handlers never prune `selectedElementIds`). -/
def traceC1 : List Event :=
  [.pointerDown 100 100, .pointerUp, .setTool .interact,
   .pointerDown 100 100, .pointerUp, .setTool .eraser, .pointerDown 100 100]

/-- C1 counterexample: the reachable state after `traceC1` (a concrete
run of the controller from the initial state) violates the invariant —
its selection set is `[0]` while its element sequence is empty, so the
claim that every reachable state satisfies the invariant is false. -/
theorem selection_invariant_counterexample :
    ¬ SelectionInvariant (run traceC1) := by
  have hstate : (run traceC1).selectedElementIds = [0] ∧ (run traceC1).elements = [] := by
    norm_num [run, traceC1, step, handleStart, handleEnd, handleMove,
      getElementAtPosition, isHit, distSq, initState, List.find?, Element.id]
  intro hinv
  obtain ⟨el, hel, _⟩ := hinv 0 (by rw [hstate.1]; exact List.mem_singleton_self 0)
  rw [hstate.2] at hel
  exact absurd hel (List.not_mem_nil el)

/-- C1 (amended): every operation preserves the selection invariant
except the two that remove elements without pruning the selection set —
an eraser pointer-down/pointer-move whose hit element is currently
selected, and an undo while the last element's id is currently selected.
Formally: a transition from an invariant-satisfying state preserves the
invariant provided any erased hit is unselected and, for undo, the last
element is unselected.  (The counterexample above shows the guard on
erase cannot be dropped; the spec itself flags the missing pruning as a
latent gap.) -/
theorem selection_invariant_preserved (s : BoardState) (e : Event)
    (hinv : SelectionInvariant s)
    (herase : ∀ x y : ℚ, s.tool = Tool.eraser →
       (e = Event.pointerDown x y ∨ e = Event.pointerMove x y) →
       ∀ hit, getElementAtPosition s.elements x y = some hit →
         hit.id ∉ s.selectedElementIds)
    (hundo : e = Event.undo → ∀ el, s.elements.getLast? = some el →
       el.id ∉ s.selectedElementIds) :
    SelectionInvariant (step s e) := by
  cases e with
  | pointerDown x y =>
      show SelectionInvariant (handleStart s x y)
      unfold SelectionInvariant at hinv ⊢
      rcases handleStart_cases s x y with ⟨h1, h2⟩ | ⟨h1, el, h2⟩ | ⟨h1, h2⟩ |
        ⟨hit, hh, h1, h2⟩ | ⟨hit, hh, h1, htool, h2⟩
      · rw [h1, h2]; exact hinv
      · rw [h1, h2]; exact hinv.append _
      · rw [h1]; exact SelIdsOk.nil _
      · rw [h1, h2]
        intro i hi
        rw [List.mem_singleton] at hi
        subst hi
        exact ⟨hit, (getElementAtPosition_mem hh).1, rfl⟩
      · rw [h1, h2]
        exact SelIdsOk.filter_ne hit.id (herase x y htool (Or.inl rfl) hit hh) hinv
  | pointerMove x y =>
      show SelectionInvariant (handleMove s x y)
      unfold SelectionInvariant at hinv ⊢
      obtain ⟨hsel, hels⟩ := handleMove_cases s x y
      rw [hsel]
      rcases hels with h | ⟨dx, dy, h⟩ | ⟨hit, hh, htool, h⟩
      · rw [h]; exact hinv
      · rw [h]; exact SelIdsOk.of_map_id_eq (applyDrag_map_id _ _ _ _) hinv
      · rw [h]
        exact SelIdsOk.filter_ne hit.id (herase x y htool (Or.inr rfl) hit hh) hinv
  | pointerUp =>
      show SelectionInvariant (handleEnd s)
      unfold SelectionInvariant at hinv ⊢
      obtain ⟨hsel, hels⟩ := handleEnd_cases s
      have hok : SelIdsOk (handleEnd s).selectedElementIds s.elements := by
        rcases hsel with h | ⟨rect, h⟩
        · rw [h]; exact hinv
        · rw [h]; exact SelIdsOk.filter_map _ _
      rcases hels with h | ⟨cur, h⟩
      · rw [h]; exact hok
      · rw [h]; exact hok.append _
  | undo =>
      show SelectionInvariant (handleUndo s)
      intro i hi
      have hi₂ : i ∈ s.selectedElementIds := hi
      obtain ⟨el, hel, hid⟩ := hinv i hi₂
      show ∃ el ∈ s.elements.dropLast, el.id = i
      by_cases hnil : s.elements = []
      · rw [hnil] at hel
        exact absurd hel (List.not_mem_nil el)
      · have hsplit := List.dropLast_append_getLast hnil
        rw [← hsplit] at hel
        rcases List.mem_append.mp hel with h | h
        · exact ⟨el, h, hid⟩
        · exfalso
          rw [List.mem_singleton] at h
          refine hundo rfl (s.elements.getLast hnil)
            (List.getLast?_eq_getLast _ hnil) ?_
          rw [← h, hid]
          exact hi₂
  | clearTrigger => exact hinv
  | clearConfirm =>
      intro i hi
      exact absurd hi (List.not_mem_nil i)
  | clearCancel => exact hinv
  | setTool t => exact hinv
  | setViewMode v => exact hinv
  | setColor c => exact hinv

/-- C1 witness: the amended preservation theorem applied at a concrete
state and event (switching tool on the initial state). -/
theorem selection_invariant_preserved_witness :
    SelectionInvariant (step initState (Event.setTool Tool.interact)) := by
  refine selection_invariant_preserved initState (Event.setTool Tool.interact)
    ?_ ?_ ?_
  · intro i hi
    exact absurd hi (List.not_mem_nil i)
  · intro x y htool hor hit hh
    exact absurd htool (by simp [initState])
  · intro h
    exact absurd h (by simp)

end LaxBoard
